import Mathlib

/-
Verification of the irc3-pinglist plugin (src/irc3pinglist.py).

The embedding below translates the module's pure helpers and each bot
command into Lean.  Python strings are Lean `String`s, Python sets of
strings are lists (kept duplicate-free by the set operations that build
them), and the bot's persistent `bot.db` mapping is an association list
from list names to member lists.  A command execution is summarised by an
`Outcome`: the privmsg replies it emitted, the database after it ran, and
the Python exception it raised, if any.  Several commands in the source
reference local or global names that are never bound (`nicks`,
`args['<message']`); executing them raises `UnboundLocalError` or
`KeyError`, which the embedding records explicitly in the outcome.
-/

/-- Word character of the regex class `\w` used by `_validate_listname`
(src lines 45-51): a letter, a digit, or an underscore. -/
def wordChar (c : Char) : Bool :=
  c.isAlpha || c.isDigit || decide (c = '_')

/-- Translation of `_validate_listname` (src lines 45-51): the name must
match `\A\w+\Z`, i.e. be non-empty and consist solely of word characters. -/
def validateListname (name : String) : Bool :=
  !(name.toList.isEmpty) && name.toList.all wordChar

/-- Character class `[-_|]` appearing in the `_nick_match` regex
(src line 61). -/
def decorChar (c : Char) : Bool :=
  decide (c = '-' ∨ c = '_' ∨ c = '|')

/-- Matching of the regex `re.escape(nick1) + "[-_|]"` against the start of
a string (src line 61): the escaped pattern consumes the literal characters
of `nick1`, then one decoration character; the rest of the input is
unconstrained because `re.match` only anchors at the start. -/
def matchLitDecor : List Char → List Char → Bool
  | [], [] => false
  | [], c :: _ => decorChar c
  | _ :: _, [] => false
  | a :: p, b :: s => if a = b then matchLitDecor p s else false

/-- Translation of `_nick_match` (src lines 54-64): two nicks match when
they are equal, or when `nick2` starts with the literal `nick1` followed
by a decoration character. -/
def nickMatch (nick1 nick2 : String) : Bool :=
  if nick1 = nick2 then true
  else matchLitDecor nick1.toList nick2.toList

/-- Lexicographic order on character lists by code point, the order Python
uses when sorting strings. -/
def lexLe : List Char → List Char → Bool
  | [], _ => true
  | _ :: _, [] => false
  | a :: as, b :: bs => if a < b then true else if b < a then false else lexLe as bs

/-- Lexicographic order on strings by code point. -/
def strLe (a b : String) : Bool := lexLe a.toList b.toList

instance strLeDecRel : DecidableRel (fun a b : String => strLe a b = true) :=
  fun a b => instDecidableEqBool (strLe a b) true

/-- Translation of Python `sorted` applied to a collection of strings. -/
def sortStrings (l : List String) : List String :=
  List.insertionSort (fun a b => strLe a b = true) l

/-- Translation of `" ".join` (src lines 209, 228, 274). -/
def joinSpace (l : List String) : String := String.intercalate " " l

/-- Whitespace splitting performed by `textwrap.wrap` before refilling. -/
def splitWords (s : String) : List String :=
  (s.splitOn " ").filter (fun w => w ≠ "")

/-- Greedy refilling of words into lines of at most `width` characters,
as done by `textwrap.wrap` with `break_long_words=False` and
`break_on_hyphens=False`: words are never split, a word that cannot fit is
placed on a fresh line. -/
def fillLines (width : Nat) : List String → String → List String
  | [], cur => if cur = "" then [] else [cur]
  | w :: ws, cur =>
    if cur = "" then fillLines width ws w
    else if cur.length + 1 + w.length ≤ width then fillLines width ws (cur ++ " " ++ w)
    else cur :: fillLines width ws w

/-- Translation of `textwrap.wrap(s, width, break_long_words=False,
break_on_hyphens=False)` (src lines 211, 230, 274). -/
def textWrap (width : Nat) (s : String) : List String :=
  fillLines width (splitWords s) ""

/-- A privmsg emitted through `self.bot.privmsg(dest, text)`. -/
structure Reply where
  dest : String
  text : String
deriving DecidableEq

/-- Python exceptions that the commands in the source can raise. -/
inductive PyExc where
  | keyError : String → PyExc
  | unboundLocalError : String → PyExc
deriving DecidableEq

/-- The bot's persistent storage `self.bot.db`: an association of list
names to member nick sets. -/
abbrev Db := List (String × List String)

/-- Result of running one command: the replies sent, the database
afterwards, and the exception raised, if any. -/
structure Outcome where
  sent : List Reply
  db : Db
  exc : Option PyExc
deriving DecidableEq

/-- Lookup of `self.bot.db[listname]`; `none` models a raised `KeyError`
for an absent key. -/
def dbLookup (db : Db) (k : String) : Option (List String) :=
  match db with
  | [] => none
  | (k2, v) :: rest => if k2 = k then some v else dbLookup rest k

/-- The key set `self.bot.db.keys()`. -/
def dbKeys (db : Db) : List String := db.map (fun e => e.1)

/-- Translation of `Pinglist.add` (src lines 84-114).  When the list is
absent, the `KeyError` handler replies `No such ping list.` and returns.
When the list exists, the very next statement reads the local variable
`nicks` (line 101), which is assigned only later in the function and never
from `args`; Python therefore raises `UnboundLocalError` before any nick
validation or any update of the stored set. -/
def addCmd (db : Db) (caller target listname : String)
    (_nicksArg : Option (List String)) : Outcome :=
  match dbLookup db listname with
  | none => ⟨[⟨target, caller ++ ": No such ping list."⟩], db, none⟩
  | some _ => ⟨[], db, some (PyExc.unboundLocalError "nicks")⟩

/-- Translation of `Pinglist.remove` (src lines 116-146), identical in
shape to `add`: absent list replies `No such ping list.`; an existing list
hits the unbound local `nicks` (line 133) before `difference_update`. -/
def removeCmd (db : Db) (caller target listname : String)
    (_nicksArg : Option (List String)) : Outcome :=
  match dbLookup db listname with
  | none => ⟨[⟨target, caller ++ ": No such ping list."⟩], db, none⟩
  | some _ => ⟨[], db, some (PyExc.unboundLocalError "nicks")⟩

/-- Translation of `Pinglist.create` (src lines 148-174).  An invalid name
is reported and nothing else happens.  For a valid name the function reads
the unbound local `nicks` (line 162) and raises `UnboundLocalError`; the
later statements (which would call `difference_update` on
`self.bot.db[listname]` rather than insert a new list, line 171) are
unreachable, and no `AlreadyExists` check appears anywhere. -/
def createCmd (db : Db) (caller target listname : String)
    (_nicksArg : Option (List String)) : Outcome :=
  if validateListname listname then
    ⟨[], db, some (PyExc.unboundLocalError "nicks")⟩
  else
    ⟨[⟨target, caller ++ ": List names can only contain alphanumeric characters."⟩], db, none⟩

/-- Translation of `Pinglist.show` (src lines 194-217): absent list replies
`No such ping list.`; otherwise the sorted members are joined, wrapped at
width 256 and sent after a header line. -/
def showCmd (db : Db) (caller target listname : String) : Outcome :=
  match dbLookup db listname with
  | none => ⟨[⟨target, caller ++ ": No such ping list."⟩], db, none⟩
  | some members =>
    ⟨⟨target, caller ++ ": Members of " ++ listname ++ ": "⟩ ::
        (textWrap 256 (joinSpace (sortStrings members))).map (fun l => ⟨target, l⟩),
      db, none⟩

/-- Translation of `Pinglist.pinglists` (src lines 219-234): a header line
followed by the sorted list names, wrapped at width 256. -/
def pinglistsCmd (db : Db) (caller target : String) : Outcome :=
  ⟨⟨target, caller ++ ": Current ping lists: "⟩ ::
      (textWrap 256 (joinSpace (sortStrings (dbKeys db)))).map (fun l => ⟨target, l⟩),
    db, none⟩

/-- Translation of `Pinglist.doping` (src lines 236-278).  Line 247 reads
`args['<message']`, a key the declared grammar `%%doping <listname>
[<channel>] <message>` never binds (the closing bracket of `<message>` is
missing), so every invocation raises `KeyError` before the channel
override, the store lookup, or any reply; the remainder of the function is
unreachable. -/
def dopingCmd (db : Db) (_caller _target _listname : String)
    (_channel : Option String) : Outcome :=
  ⟨[], db, some (PyExc.keyError "<message")⟩

/-- Python `set.add`: appends the element only when it is not already a
member. -/
def setAdd (s : List String) (x : String) : List String :=
  if x ∈ s then s else s ++ [x]

/-- Python `set(...)` built from an iterable of strings. -/
def pySet (l : List String) : List String := l.foldl setAdd []

/-- Body of the inner loop of the resolution code (src lines 267-271): a
present nick equal to the stored nick is skipped, a matching one is added
to the accumulated ping set. -/
def resolveStep (nick : String) (acc : List String) (nick2 : String) : List String :=
  if nick = nick2 then acc
  else if nickMatch nick nick2 then setAdd acc nick2
  else acc

/-- The inner loop of the resolution code: one stored nick checked against
every present nick. -/
def resolveFold (presence : List String) (acc : List String) (nick : String) : List String :=
  presence.foldl (resolveStep nick) acc

/-- Translation of the nick-resolution loop of `Pinglist.doping`
(src lines 264-272): starting from a copy of the stored set, every present
nick matching some stored nick (other than the stored nick itself) is
added, and the result is sorted.  The presence snapshot — in the source
the channel user set `irc.state.channels[target].users` supplied by the
chat runtime — is the explicit parameter `presence`. -/
def doResolve (pinglist presence : List String) : List String :=
  sortStrings (pinglist.foldl (resolveFold presence) (pySet pinglist))

/-
Helper lemmas.
-/

theorem strLe_total (a b : String) : strLe a b = true ∨ strLe b a = true := by
  unfold strLe
  generalize a.toList = x
  generalize b.toList = y
  induction x generalizing y with
  | nil => left; rfl
  | cons c cs ih =>
    cases y with
    | nil => right; rfl
    | cons d ds =>
      rcases lt_trichotomy c d with h | h | h
      · left; simp [lexLe, h]
      · subst h
        rcases ih ds with h2 | h2
        · left; simp [lexLe, lt_irrefl, h2]
        · right; simp [lexLe, lt_irrefl, h2]
      · right; simp [lexLe, h]

theorem lexLe_trans (x y z : List Char) (h1 : lexLe x y = true) (h2 : lexLe y z = true) :
    lexLe x z = true := by
  induction x generalizing y z with
  | nil => rfl
  | cons a as ih =>
    cases y with
    | nil => simp [lexLe] at h1
    | cons b bs =>
      cases z with
      | nil => simp [lexLe] at h2
      | cons c cs =>
        simp only [lexLe] at h1 h2 ⊢
        by_cases hab : a < b
        · by_cases hbc : b < c
          · simp [lt_trans hab hbc]
          · by_cases hcb : c < b
            · simp [hbc, hcb] at h2
            · have hbceq : b = c := le_antisymm (not_lt.mp hcb) (not_lt.mp hbc)
              subst hbceq
              simp [hab]
        · by_cases hba : b < a
          · simp [hab, hba] at h1
          · have habeq : a = b := le_antisymm (not_lt.mp hba) (not_lt.mp hab)
            subst habeq
            simp only [lt_irrefl, if_false] at h1
            by_cases hac : a < c
            · simp [hac]
            · by_cases hca : c < a
              · simp [hac, hca] at h2
              · simp only [hac, hca, if_false] at h2 ⊢
                exact ih bs cs h1 h2

instance strLeTotalInst : IsTotal String (fun a b : String => strLe a b = true) :=
  ⟨strLe_total⟩

instance strLeTransInst : IsTrans String (fun a b : String => strLe a b = true) :=
  ⟨fun a b c h1 h2 => lexLe_trans a.toList b.toList c.toList h1 h2⟩

theorem sorted_sortStrings (l : List String) :
    List.Sorted (fun a b : String => strLe a b = true) (sortStrings l) :=
  List.sorted_insertionSort (fun a b => strLe a b = true) l

theorem perm_sortStrings (l : List String) : List.Perm (sortStrings l) l :=
  List.perm_insertionSort (fun a b => strLe a b = true) l

theorem toList_eq_nil_iff (s : String) : s.toList = [] ↔ s = "" := by
  rw [← String.toList_empty, String.toList_inj]

theorem matchLitDecor_iff (p s : List Char) :
    matchLitDecor p s = true ↔
      ∃ d r, (d = '-' ∨ d = '_' ∨ d = '|') ∧ s = p ++ d :: r := by
  induction p generalizing s with
  | nil =>
    cases s with
    | nil => simp [matchLitDecor]
    | cons c cs =>
      simp only [matchLitDecor, decorChar, List.nil_append, decide_eq_true_eq]
      constructor
      · intro h
        exact ⟨c, cs, h, rfl⟩
      · rintro ⟨d, r, hd, he⟩
        injection he with h1 h2
        subst h1
        exact hd
  | cons a p ih =>
    cases s with
    | nil => simp [matchLitDecor]
    | cons b bs =>
      simp only [matchLitDecor, List.cons_append]
      by_cases hab : a = b
      · subst hab
        rw [if_pos rfl, ih]
        constructor
        · rintro ⟨d, r, hd, he⟩
          exact ⟨d, r, hd, by rw [he]⟩
        · rintro ⟨d, r, hd, he⟩
          injection he with h1 h2
          exact ⟨d, r, hd, h2⟩
      · rw [if_neg hab]
        constructor
        · intro h
          exact absurd h (by decide)
        · rintro ⟨d, r, hd, he⟩
          injection he with h1 h2
          exact absurd h1.symm hab

theorem nickMatch_iff (s c : String) :
    nickMatch s c = true ↔
      c = s ∨ ∃ d r, (d = '-' ∨ d = '_' ∨ d = '|') ∧ c.toList = s.toList ++ d :: r := by
  unfold nickMatch
  by_cases he : s = c
  · subst he
    simp
  · rw [if_neg he, matchLitDecor_iff]
    constructor
    · intro h
      exact Or.inr h
    · rintro (h | h)
      · exact absurd h.symm he
      · exact h

theorem mem_setAdd (s : List String) (x y : String) :
    y ∈ setAdd s x ↔ y ∈ s ∨ y = x := by
  unfold setAdd
  by_cases h : x ∈ s
  · rw [if_pos h]
    constructor
    · exact Or.inl
    · rintro (hy | rfl)
      · exact hy
      · exact h
  · rw [if_neg h]
    simp

theorem nodup_setAdd (s : List String) (x : String) (h : s.Nodup) : (setAdd s x).Nodup := by
  unfold setAdd
  by_cases hx : x ∈ s
  · rw [if_pos hx]
    exact h
  · rw [if_neg hx]
    simp [List.nodup_append, h, hx]

theorem mem_foldl_setAdd (l acc : List String) (x : String) :
    x ∈ l.foldl setAdd acc ↔ x ∈ acc ∨ x ∈ l := by
  induction l generalizing acc with
  | nil => simp
  | cons a as ih =>
    rw [List.foldl_cons, ih, mem_setAdd]
    simp [List.mem_cons]
    tauto

theorem nodup_foldl_setAdd (l : List String) (acc : List String) (h : acc.Nodup) :
    (l.foldl setAdd acc).Nodup := by
  induction l generalizing acc with
  | nil => exact h
  | cons a as ih =>
    rw [List.foldl_cons]
    exact ih (setAdd acc a) (nodup_setAdd acc a h)

theorem mem_pySet (l : List String) (x : String) : x ∈ pySet l ↔ x ∈ l := by
  unfold pySet
  rw [mem_foldl_setAdd]
  simp

theorem nodup_pySet (l : List String) : (pySet l).Nodup :=
  nodup_foldl_setAdd l [] List.nodup_nil

theorem mem_resolveFold (presence acc : List String) (nick x : String) :
    x ∈ resolveFold presence acc nick ↔
      x ∈ acc ∨ (x ∈ presence ∧ nick ≠ x ∧ nickMatch nick x = true) := by
  induction presence generalizing acc with
  | nil => simp [resolveFold]
  | cons p ps ih =>
    show x ∈ resolveFold ps (resolveStep nick acc p) nick ↔ _
    rw [ih]
    unfold resolveStep
    by_cases h1 : nick = p
    · subst h1
      rw [if_pos rfl]
      by_cases hx : x = nick
      · subst hx
        simp
      · simp [List.mem_cons, hx]
    · rw [if_neg h1]
      by_cases h2 : nickMatch nick p = true
      · rw [if_pos h2, mem_setAdd]
        by_cases hx : x = p
        · subst hx
          simp [h1, h2, List.mem_cons]
        · simp [hx, List.mem_cons]
      · rw [if_neg h2]
        by_cases hx : x = p
        · subst hx
          simp [h2, List.mem_cons]
        · simp [hx, List.mem_cons]

theorem nodup_resolveFold (presence acc : List String) (nick : String) (h : acc.Nodup) :
    (resolveFold presence acc nick).Nodup := by
  induction presence generalizing acc with
  | nil => exact h
  | cons p ps ih =>
    show (resolveFold ps (resolveStep nick acc p) nick).Nodup
    apply ih
    unfold resolveStep
    split
    · exact h
    · split
      · exact nodup_setAdd acc p h
      · exact h

theorem mem_resolveOuter (pl2 presence acc : List String) (x : String) :
    x ∈ pl2.foldl (resolveFold presence) acc ↔
      x ∈ acc ∨ ∃ s ∈ pl2, x ∈ presence ∧ s ≠ x ∧ nickMatch s x = true := by
  induction pl2 generalizing acc with
  | nil => simp
  | cons n ns ih =>
    rw [List.foldl_cons, ih, mem_resolveFold]
    constructor
    · rintro ((hacc | hcond) | ⟨s, hs, hc⟩)
      · exact Or.inl hacc
      · exact Or.inr ⟨n, List.mem_cons_self n ns, hcond⟩
      · exact Or.inr ⟨s, List.mem_cons_of_mem n hs, hc⟩
    · rintro (hacc | ⟨s, hs, hc⟩)
      · exact Or.inl (Or.inl hacc)
      · rcases List.mem_cons.mp hs with rfl | hs2
        · exact Or.inl (Or.inr hc)
        · exact Or.inr ⟨s, hs2, hc⟩

theorem nodup_resolveOuter (pl2 presence acc : List String) (h : acc.Nodup) :
    (pl2.foldl (resolveFold presence) acc).Nodup := by
  induction pl2 generalizing acc with
  | nil => exact h
  | cons n ns ih =>
    rw [List.foldl_cons]
    exact ih (resolveFold presence acc n) (nodup_resolveFold presence acc n h)

theorem mem_doResolve (pinglist presence : List String) (x : String) :
    x ∈ doResolve pinglist presence ↔
      x ∈ pinglist ∨ (x ∈ presence ∧ ∃ s ∈ pinglist, x ≠ s ∧ nickMatch s x = true) := by
  unfold doResolve
  rw [(perm_sortStrings _).mem_iff, mem_resolveOuter, mem_pySet]
  constructor
  · rintro (hpl | ⟨s, hs, hpr, hne, hm⟩)
    · exact Or.inl hpl
    · exact Or.inr ⟨hpr, s, hs, hne.symm, hm⟩
  · rintro (hpl | ⟨hpr, s, hs, hne, hm⟩)
    · exact Or.inl hpl
    · exact Or.inr ⟨s, hs, hpr, hne.symm, hm⟩

theorem nodup_doResolve (pinglist presence : List String) :
    (doResolve pinglist presence).Nodup := by
  unfold doResolve
  rw [(perm_sortStrings _).nodup_iff]
  exact nodup_resolveOuter pinglist presence (pySet pinglist) (nodup_pySet pinglist)

theorem sorted_doResolve (pinglist presence : List String) :
    List.Sorted (fun a b : String => strLe a b = true) (doResolve pinglist presence) :=
  sorted_sortStrings _

theorem addCmd_db (db : Db) (caller target listname : String) (a : Option (List String)) :
    (addCmd db caller target listname a).db = db := by
  cases h : dbLookup db listname <;> simp [addCmd, h]

theorem removeCmd_db (db : Db) (caller target listname : String) (a : Option (List String)) :
    (removeCmd db caller target listname a).db = db := by
  cases h : dbLookup db listname <;> simp [removeCmd, h]

theorem showCmd_db (db : Db) (caller target listname : String) :
    (showCmd db caller target listname).db = db := by
  cases h : dbLookup db listname <;> simp [showCmd, h]

theorem pinglistsCmd_db (db : Db) (caller target : String) :
    (pinglistsCmd db caller target).db = db := rfl

theorem dopingCmd_db (db : Db) (caller target listname : String) (channel : Option String) :
    (dopingCmd db caller target listname channel).db = db := rfl

/-
Claim theorems.
-/

/-- C1: evaluation of the code at the failing input.  The claim says that
`create` on a name already present fails with `AlreadyExists` and on an
absent name creates a list seeded with the supplied handles.  In the
source, `create` on any valid list name — present or absent — reads the
unbound local `nicks` and raises `UnboundLocalError`: it sends no reply,
never checks for an existing name, and never inserts a list (the store is
returned unchanged). -/
theorem create_crashes_on_valid_name (db : Db) (caller target listname : String)
    (nicksArg : Option (List String)) (h : validateListname listname = true) :
    createCmd db caller target listname nicksArg =
      ⟨[], db, some (PyExc.unboundLocalError "nicks")⟩ := by
  simp [createCmd, h]

/-- C1 witness: creating the valid fresh name `foo` on an empty store
raises `UnboundLocalError` instead of creating the list. -/
theorem create_crashes_on_valid_name_witness :
    createCmd [] "alice" "#chan" "foo" (some []) =
      ⟨[], [], some (PyExc.unboundLocalError "nicks")⟩ :=
  create_crashes_on_valid_name [] "alice" "#chan" "foo" (some []) (by decide)

/-- C2: for every non-empty stored handle set and every presence set, the
resolution loop of `doping` returns exactly the lexicographically sorted,
duplicate-free sequence of the union of the stored handles with every
present handle that differs from some stored handle and matches it; in
particular resolving `{alice}` against `{alice_, bob}` gives
`[alice, alice_]` and resolving `{alice}` against `{}` gives `[alice]`. -/
theorem doping_resolution_spec (stored presence : List String) (_hne : stored ≠ []) :
    (List.Sorted (fun a b : String => strLe a b = true) (doResolve stored presence) ∧
      (doResolve stored presence).Nodup ∧
      (∀ x, x ∈ doResolve stored presence ↔
        x ∈ stored ∨ (x ∈ presence ∧ ∃ s ∈ stored, x ≠ s ∧ nickMatch s x = true))) ∧
    doResolve ["alice"] ["alice_", "bob"] = ["alice", "alice_"] ∧
    doResolve ["alice"] [] = ["alice"] := by
  refine ⟨⟨sorted_doResolve stored presence, nodup_doResolve stored presence,
    fun x => mem_doResolve stored presence x⟩, by decide, by decide⟩

/-- C2 witness: the resolution characterisation instantiated at the
stored set `{alice}` and the presence set `{alice_, bob}`. -/
theorem doping_resolution_spec_witness :
    (List.Sorted (fun a b : String => strLe a b = true)
        (doResolve ["alice"] ["alice_", "bob"]) ∧
      (doResolve ["alice"] ["alice_", "bob"]).Nodup ∧
      (∀ x, x ∈ doResolve ["alice"] ["alice_", "bob"] ↔
        x ∈ ["alice"] ∨ (x ∈ ["alice_", "bob"] ∧
          ∃ s ∈ ["alice"], x ≠ s ∧ nickMatch s x = true))) ∧
    doResolve ["alice"] ["alice_", "bob"] = ["alice", "alice_"] ∧
    doResolve ["alice"] [] = ["alice"] :=
  doping_resolution_spec ["alice"] ["alice_", "bob"] (by decide)

/-- C3: `_nick_match stored candidate` holds exactly when the candidate
equals the stored nick, or begins with the stored nick followed
immediately by one of the decoration characters `-`, `_`, `|` with
anything after; the listed concrete examples behave as claimed. -/
theorem nick_match_spec :
    (∀ stored candidate : String,
      nickMatch stored candidate = true ↔
        (candidate = stored ∨ ∃ d r, (d = '-' ∨ d = '_' ∨ d = '|') ∧
          candidate.toList = stored.toList ++ d :: r)) ∧
    nickMatch "alice" "alice" = true ∧
    nickMatch "alice" "alice_" = true ∧
    nickMatch "alice" "alice|away" = true ∧
    nickMatch "alice" "alice-2" = true ∧
    nickMatch "alice" "alicex" = false ∧
    nickMatch "alice" "bob" = false := by
  exact ⟨fun s c => nickMatch_iff s c, by decide, by decide, by decide, by decide,
    by decide, by decide⟩

/-- C4: running `add` then `remove` with the same handle set on an
existing list leaves that list's member set exactly as it started, for
any starting set.  On this code the equality holds because neither
command ever reaches its mutation statement: both raise
`UnboundLocalError` on the unassigned local `nicks` first, so the store
is never written at all. -/
theorem add_remove_roundtrip (db : Db) (caller target listname : String)
    (S H : List String) (h : dbLookup db listname = some S) :
    dbLookup (removeCmd (addCmd db caller target listname (some H)).db
        caller target listname (some H)).db listname = some S := by
  rw [removeCmd_db, addCmd_db]
  exact h

/-- C4 witness: the round trip on the list `foo` with starting set
`{alice}` and handle set `{alice}` (an overlapping set) leaves the stored
set `{alice}`. -/
theorem add_remove_roundtrip_witness :
    dbLookup (removeCmd (addCmd [("foo", ["alice"])] "bob" "#chan" "foo"
        (some ["alice"])).db "bob" "#chan" "foo" (some ["alice"])).db "foo" =
      some ["alice"] :=
  add_remove_roundtrip [("foo", ["alice"])] "bob" "#chan" "foo" ["alice"] ["alice"]
    (by decide)

/-- C5: evaluation of the code at the failing input.  The claim says that
`add` on an existing list validates the supplied handles (reporting
`Invalid nick`) and on success unions them into the stored set.  In the
source, `add` on an existing list raises `UnboundLocalError` on the
unassigned local `nicks` before any handle validation or any union:
it sends no reply and leaves the store unchanged. -/
theorem add_crashes_on_existing_list (db : Db) (caller target listname : String)
    (S : List String) (nicksArg : Option (List String))
    (h : dbLookup db listname = some S) :
    addCmd db caller target listname nicksArg =
      ⟨[], db, some (PyExc.unboundLocalError "nicks")⟩ := by
  simp [addCmd, h]

/-- C5 witness: adding `bob` to the existing empty list `foo` raises
`UnboundLocalError` instead of storing the handle. -/
theorem add_crashes_on_existing_list_witness :
    addCmd [("foo", [])] "alice" "#chan" "foo" (some ["bob"]) =
      ⟨[], [("foo", [])], some (PyExc.unboundLocalError "nicks")⟩ :=
  add_crashes_on_existing_list [("foo", [])] "alice" "#chan" "foo" [] (some ["bob"])
    (by decide)

/-- C6: evaluation of the code at the failing input.  The claim says that
`doping` on an existing empty list replies `Ping list is empty.` without
resolving.  In the source, `doping` reads the argument key `<message`
(sic) which its own grammar never binds, so every invocation — the empty
existing list included — raises `KeyError` before any store access and
sends no reply at all. -/
theorem doping_empty_list_sends_nothing (db : Db) (caller target listname : String)
    (channel : Option String) (_h : dbLookup db listname = some []) :
    dopingCmd db caller target listname channel =
      ⟨[], db, some (PyExc.keyError "<message")⟩ := rfl

/-- C6 witness: `doping` on the existing empty list `foo` raises
`KeyError` on the misspelled argument key and never sends the
`Ping list is empty.` reply. -/
theorem doping_empty_list_sends_nothing_witness :
    dopingCmd [("foo", [])] "alice" "#chan" "foo" none =
      ⟨[], [("foo", [])], some (PyExc.keyError "<message")⟩ :=
  doping_empty_list_sends_nothing [("foo", [])] "alice" "#chan" "foo" none (by decide)

/-- C7: every command other than `create` and `delete` — `add`, `remove`,
`show`, `pinglists`, `doping` — leaves the set of list names in the store
unchanged, on every execution path (reply, success, or raised
exception). -/
theorem commands_preserve_key_set (db : Db) (caller target listname : String)
    (nicksArg : Option (List String)) (channel : Option String) :
    dbKeys (addCmd db caller target listname nicksArg).db = dbKeys db ∧
    dbKeys (removeCmd db caller target listname nicksArg).db = dbKeys db ∧
    dbKeys (showCmd db caller target listname).db = dbKeys db ∧
    dbKeys (pinglistsCmd db caller target).db = dbKeys db ∧
    dbKeys (dopingCmd db caller target listname channel).db = dbKeys db :=
  ⟨congrArg dbKeys (addCmd_db db caller target listname nicksArg),
    congrArg dbKeys (removeCmd_db db caller target listname nicksArg),
    congrArg dbKeys (showCmd_db db caller target listname),
    congrArg dbKeys (pinglistsCmd_db db caller target),
    congrArg dbKeys (dopingCmd_db db caller target listname channel)⟩

/-- C8: `_validate_listname` accepts a name exactly when it is non-empty
and consists solely of word characters (letters, digits, underscore);
a space, `a b`, the empty string and `a!` are rejected, `a_1` is
accepted. -/
theorem validate_listname_spec :
    (∀ name : String, validateListname name = true ↔
      (name ≠ "" ∧ ∀ ch ∈ name.toList,
        (ch.isAlpha = true ∨ ch.isDigit = true ∨ ch = '_'))) ∧
    validateListname " " = false ∧
    validateListname "a b" = false ∧
    validateListname "" = false ∧
    validateListname "a!" = false ∧
    validateListname "a_1" = true := by
  refine ⟨fun name => ?_, by decide, by decide, by decide, by decide, by decide⟩
  unfold validateListname
  rw [Bool.and_eq_true, List.all_eq_true]
  constructor
  · rintro ⟨h1, h2⟩
    refine ⟨?_, ?_⟩
    · intro he
      subst he
      rw [String.toList_empty] at h1
      exact absurd h1 (by decide)
    · intro ch hch
      have h3 := h2 ch hch
      unfold wordChar at h3
      simp only [Bool.or_eq_true, decide_eq_true_eq] at h3
      tauto
  · rintro ⟨h1, h2⟩
    refine ⟨?_, ?_⟩
    · cases hn : name.toList with
      | nil => exact absurd ((toList_eq_nil_iff name).mp hn) h1
      | cons c cs => rfl
    · intro ch hch
      unfold wordChar
      simp only [Bool.or_eq_true, decide_eq_true_eq]
      have h3 := h2 ch hch
      tauto

/-- C9: evaluation of the code at the failing input.  The claim says that
`doping` with a destination override sends all its replies, error replies
included, to the override.  In the source, `doping` raises `KeyError` on
the misspelled argument key `<message` before the override is even
applied, so no reply is ever sent to any destination. -/
theorem doping_override_sends_nothing (db : Db)
    (caller target listname overrideCh : String) :
    (dopingCmd db caller target listname (some overrideCh)).sent = [] ∧
    (dopingCmd db caller target listname (some overrideCh)).exc =
      some (PyExc.keyError "<message") :=
  ⟨rfl, rfl⟩

/-- C10: handle matching treats a stored handle containing regex
metacharacters literally, because `_nick_match` escapes it with
`re.escape`: for such a stored handle the match holds exactly on equality
or on the literal prefix followed by a decoration character; in
particular `a.c` does not match `abc_` but does match `a.c-2`. -/
theorem nick_match_literal_stored (stored candidate : String)
    (_hmeta : ∃ m ∈ stored.toList, m = '.' ∨ m = '[' ∨ m = '*') :
    (nickMatch stored candidate = true ↔
      (candidate = stored ∨ ∃ d r, (d = '-' ∨ d = '_' ∨ d = '|') ∧
        candidate.toList = stored.toList ++ d :: r)) ∧
    nickMatch "a.c" "abc_" = false ∧
    nickMatch "a.c" "a.c-2" = true :=
  ⟨nickMatch_iff stored candidate, by decide, by decide⟩

/-- C10 witness: the literal-matching characterisation instantiated at
the stored handle `a.c` (which contains the metacharacter `.`) and the
candidate `a.c-2`. -/
theorem nick_match_literal_stored_witness :
    (nickMatch "a.c" "a.c-2" = true ↔
      ("a.c-2" = "a.c" ∨ ∃ d r, (d = '-' ∨ d = '_' ∨ d = '|') ∧
        "a.c-2".toList = "a.c".toList ++ d :: r)) ∧
    nickMatch "a.c" "abc_" = false ∧
    nickMatch "a.c" "a.c-2" = true :=
  nick_match_literal_stored "a.c" "a.c-2" (by decide)
